import Mathlib

/-!
Verification development for the Tuesday Tips slide generator.

The program under study (app.py and generate_infographic.py) parses pasted
text into a placeholder mapping, copies a Google Slides template, replaces
the placeholders, publishes the deck, and exports slide thumbnails into an
in-memory ZIP archive.  The pure parsing logic is embedded directly; the
remote workflow is embedded as functions over an explicit environment that
supplies the outcome of every remote call, and each function additionally
returns the trace of remote operations it performed.

Text lines are modelled as lists of characters (Python str.splitlines
yields newline-free lines).  Python str.strip and the regex class \s are
modelled over the six ASCII whitespace characters.
-/

set_option maxRecDepth 20000

abbrev Line := List Char

/-- ASCII whitespace, as stripped by Python str.strip and matched by \s. -/
def isPySpace (c : Char) : Bool :=
  c = ' ' || c = '\t' || c = '\n' || c = '\r' || c = Char.ofNat 11 || c = Char.ofNat 12

/-- Python str.strip(): remove leading and trailing whitespace. -/
def pyStrip (l : Line) : Line :=
  ((l.dropWhile isPySpace).reverse.dropWhile isPySpace).reverse

def notRBrace (c : Char) : Bool := c != '}'

def isRBrace (c : Char) : Bool := c == '}'

def isLBrace (c : Char) : Bool := c == '{'

/-- Embedding of pattern.match for the regex (\x7b{1,}[^}]+\x7d{1,})\s*(.*)
used by parse_user_content, applied to an already stripped line.  The match
succeeds exactly when the line starts with an opening brace and the first
closing brace occurs at index at least 2; group 1 is then the prefix up to
and including the maximal run of closing braces starting at the first
closing brace, and group 2 is the remainder of the line with leading
whitespace removed. -/
def matchToken (s : Line) : Option (Line × Line) :=
  match s with
  | [] => none
  | c :: _ =>
    if c = '{' then
      let pre := s.takeWhile notRBrace
      let post := s.dropWhile notRBrace
      if 2 ≤ pre.length ∧ post ≠ [] then
        some (pre ++ post.takeWhile isRBrace,
              (post.dropWhile isRBrace).dropWhile isPySpace)
      else none
    else none

/-- Wrap an inner token text with exactly two braces on each side. -/
def wrapBraces (inner : Line) : Line :=
  '{' :: '{' :: (inner ++ ['}', '}'])

/-- Normalisation of a raw matched token, following parse_user_content:
strip all leading opening braces, strip the trailing run of closing braces,
trim whitespace, and re-wrap with exactly two braces on each side. -/
def normalizeKey (raw : Line) : Line :=
  let inner := raw.dropWhile isLBrace
  let inner := (inner.reverse.dropWhile isRBrace).reverse
  wrapBraces (pyStrip inner)

/-- The next-line fallback of parse_user_content: the stripped contents of
the first non-blank line among the lines after the token line, or the empty
string when every remaining line is blank. -/
def nextNonBlank : List Line → Line
  | [] => []
  | nxt :: rest => if pyStrip nxt ≠ [] then pyStrip nxt else nextNonBlank rest

/-- Python dict assignment mapping[key] = v: overwrite the entry when the
key is present, append it otherwise. -/
def updateMap (m : List (Line × Line)) (k v : Line) : List (Line × Line) :=
  match m with
  | [] => [(k, v)]
  | (k', v') :: rest =>
    if k' = k then (k, v) :: rest else (k', v') :: updateMap rest k v

/-- Python dict lookup. -/
def lookupM (m : List (Line × Line)) (k : Line) : Option Line :=
  match m with
  | [] => none
  | (k', v) :: rest => if k' = k then some v else lookupM rest k

/-- Python dict key membership test. -/
def containsKey (m : List (Line × Line)) (k : Line) : Bool :=
  (lookupM m k).isSome

/-- The line-by-line loop of parse_user_content.  For each line, strip it,
run the token regex; on a match, normalise the token, and when the key is
in the catalog store either the stripped inline text (when non-empty) or
the next-line fallback computed over the lines after the current one. -/
def parseLines (cat : List Line) : List Line → List (Line × Line) → List (Line × Line)
  | [], m => m
  | l :: rest, m =>
    match matchToken (pyStrip l) with
    | none => parseLines cat rest m
    | some (rawKey, val) =>
      let key := normalizeKey rawKey
      if key ∈ cat then
        let v := if pyStrip val ≠ [] then pyStrip val else nextNonBlank rest
        parseLines cat rest (updateMap m key v)
      else parseLines cat rest m

/-- parse_user_content, generic in the placeholder catalog: returns the
mapping together with the catalog keys missing from it, in catalog order. -/
def parse_user_content_cat (cat : List Line) (lines : List Line) :
    List (Line × Line) × List Line :=
  let mapping := parseLines cat lines []
  (mapping, cat.filter (fun ph => !(containsKey mapping ph)))

/-- The fixed placeholder catalog TEMPLATE_PLACEHOLDERS of app.py. -/
def TEMPLATE_PLACEHOLDERS : List Line :=
  [ "Title", "Subtitle",
    "Lesson 1 Title", "Lesson 1 Subtitle",
    "Lesson 1 Explainer 1", "Lesson 1 Explainer 2",
    "Lesson 1 List Title", "Lesson 1 List Point 1",
    "Lesson 1 List Point 2", "Lesson 1 List Point 3",
    "Lesson 1 Case Title", "Lesson 1 Case Description",
    "Lesson 2 Title", "Lesson 2 Subtitle",
    "Lesson 2 Explainer 1", "Lesson 2 Explainer 2",
    "Lesson 2 List Title", "Lesson 2 List Point 1",
    "Lesson 2 List Point 2", "Lesson 2 List Point 3",
    "Lesson 2 Case Title", "Lesson 2 Case Description",
    "Lesson 3 Title", "Lesson 3 Subtitle",
    "Lesson 3 Explainer 1", "Lesson 3 Explainer 2",
    "Lesson 3 List Title", "Lesson 3 List Point 1",
    "Lesson 3 List Point 2", "Lesson 3 List Point 3",
    "Lesson 3 Case Title", "Lesson 3 Case Description",
    "Lesson 4 Title", "Lesson 4 Subtitle",
    "Lesson 4 Explainer 1", "Lesson 4 Explainer 2",
    "Lesson 4 List Title", "Lesson 4 List Point 1",
    "Lesson 4 List Point 2", "Lesson 4 List Point 3",
    "Lesson 4 Case Title", "Lesson 4 Case Description",
    "Activity Title", "Activity Instructions" ].map (fun s => wrapBraces s.toList)

/-- parse_user_content of app.py, over the fixed catalog. -/
def parse_user_content (lines : List Line) : List (Line × Line) × List Line :=
  parse_user_content_cat TEMPLATE_PLACEHOLDERS lines

/-! ## Generation pipeline (app.py Generate Slide Deck handler)

The remote Drive/Slides workflow is modelled over an environment that fixes
the outcome of every remote call.  Each embedded operation returns the list
of remote operations it actually invoked, so that claims about calls never
being made can be stated as facts about the trace. -/

/-- The remote operations the generation pipeline can invoke. -/
inductive RemoteOp where
  | copyFile
  | moveFile
  | batchReplace
  | createPermission
  | getWebViewLink
deriving DecidableEq, Repr

/-- Outcomes of the remote calls used by the generation pipeline; an
error value models the underlying client raising an exception. -/
structure GenEnv where
  copyResult : Except String String
  moveResult : Except String Unit
  replaceResult : Except String Unit
  permResult : Except String Unit
  linkResult : Except String String

/-- ID of the Google Drive folder where new slide decks are saved. -/
def DESTINATION_FOLDER_ID : String := "1y-f2hHLl102Wj1ff6cURa7GLT5oaOwpt"

/-- The warning surfaced when relocating the copied deck fails. -/
def moveWarning (e : String) : String :=
  "Could not move slide deck into the destination folder: " ++ e ++
    ". The deck was still created in your Drive root."

/-- Embedding of copy_template_presentation: copy the template first; when
a parent folder is given, relocate the copy in a second call whose failure
is caught and turned into a warning, never discarding the copied ID.
Returns (invoked operations, warnings, result). -/
def copy_template_presentation (env : GenEnv) (parentFolderId : Option String) :
    List RemoteOp × List String × Except String String :=
  match env.copyResult with
  | .error e => ([.copyFile], [], .error e)
  | .ok fileId =>
    match parentFolderId with
    | none => ([.copyFile], [], .ok fileId)
    | some _ =>
      match env.moveResult with
      | .ok _ => ([.copyFile, .moveFile], [], .ok fileId)
      | .error e => ([.copyFile, .moveFile], [moveWarning e], .ok fileId)

/-- One replaceAllText request of the batchUpdate body. -/
structure ReplaceReq where
  containsText : Line
  matchCase : Bool
  replaceText : Line
deriving DecidableEq

/-- The batchUpdate request list built by replace_placeholders: one
case-sensitive replaceAllText request per mapping entry, in mapping
order. -/
def replace_placeholders_requests (mapping : List (Line × Line)) : List ReplaceReq :=
  mapping.map (fun kv => { containsText := kv.1, matchCase := true, replaceText := kv.2 })

/-- Embedding of make_deck_public: grant public read access, then fetch the
webViewLink; the first failure propagates. -/
def make_deck_public (env : GenEnv) : List RemoteOp × Except String String :=
  match env.permResult with
  | .error e => ([.createPermission], .error e)
  | .ok _ =>
    match env.linkResult with
    | .error e => ([.createPermission, .getWebViewLink], .error e)
    | .ok link => ([.createPermission, .getWebViewLink], .ok link)

/-- Result of one run of the Generate Slide Deck handler. -/
inductive GenOutcome where
  | validationError (missing : List Line)
  | failure (e : String)
  | success (deckId : String) (shareLink : String)
deriving DecidableEq

/-- Embedding of the Generate Slide Deck button handler of app.py: parse
the pasted text; when any placeholder is missing, report the missing keys
and stop before any remote call; otherwise copy the template (into the
destination folder), replace the placeholders, and publish the deck, any
uncaught exception aborting the run. -/
def generate_slide_deck (env : GenEnv) (userInput : List Line) :
    List RemoteOp × List String × GenOutcome :=
  let parsed := parse_user_content userInput
  if parsed.2 ≠ [] then ([], [], .validationError parsed.2)
  else
    let copied := copy_template_presentation env (some DESTINATION_FOLDER_ID)
    match copied.2.2 with
    | .error e => (copied.1, copied.2.1, .failure e)
    | .ok newId =>
      match env.replaceResult with
      | .error e => (copied.1 ++ [.batchReplace], copied.2.1, .failure e)
      | .ok _ =>
        let pub := make_deck_public env
        match pub.2 with
        | .error e => (copied.1 ++ [.batchReplace] ++ pub.1, copied.2.1, .failure e)
        | .ok link => (copied.1 ++ [.batchReplace] ++ pub.1, copied.2.1, .success newId link)

/-! ## Thumbnail exporter (build_slide_images_zip of app.py)

The exporter walks the slides in document order; for each slide it tries
thumbnail sizes LARGE, MEDIUM, SMALL.  A size attempt requests a thumbnail
descriptor, then downloads the image with up to three attempts, retrying
only when raise_for_status reported a server-side status (at least 500)
and attempts remain; the resulting HTTPError, like every other exception
of a size attempt, is caught by the per-size handler, which re-raises only
when the failing size is SMALL and otherwise falls through to the next
size.  ZIP entries are modelled as (name, bytes) pairs. -/

/-- Remote events the exporter can perform, recorded in a trace. -/
inductive ThumbEv where
  | getMeta
  | getThumb (slideId : String) (size : String)
  | fetchEv (url : String) (attempt : Nat)
deriving DecidableEq, Repr

/-- Environment of the exporter: the slide metadata, the thumbnail
descriptor call per (slide, size), and the image download per (url,
attempt).  A download yields either a raised non-HTTP exception (error
case) or an HTTP status with the response body. -/
structure ThumbEnv where
  presMeta : Except String (List String)
  getThumbnail : String → String → Except String String
  fetch : String → Nat → Except String (Nat × List Nat)

/-- requests raise_for_status: an HTTPError is raised exactly for status
codes in [400, 600). -/
def isHTTPErrorStatus (status : Nat) : Bool :=
  400 ≤ status && status < 600

/-- The inner download loop over the remaining attempt indices (invoked
with [0, 1, 2], mirroring range(3)): retry on a server-side status when
attempts remain, otherwise raise the HTTPError; any non-HTTP exception of
the request propagates at once.  The (attempt < 2) test of the source is
the (rest not empty) test here. -/
def fetchRetry (env : ThumbEnv) (url : String) : List Nat → List ThumbEv × Except String (List Nat)
  | [] => ([], .error "retry loop exhausted")
  | a :: rest =>
    match env.fetch url a with
    | .error e => ([.fetchEv url a], .error e)
    | .ok (status, content) =>
      if isHTTPErrorStatus status then
        if 500 ≤ status ∧ rest ≠ [] then
          let next := fetchRetry env url rest
          (.fetchEv url a :: next.1, next.2)
        else ([.fetchEv url a], .error ("HTTPError " ++ toString status))
      else ([.fetchEv url a], .ok content)

/-- One size attempt of the exporter: request the thumbnail descriptor,
then run the download retry loop on the returned URL. -/
def attemptSize (env : ThumbEnv) (slideId : String) (size : String) :
    List ThumbEv × Except String (List Nat) :=
  match env.getThumbnail slideId size with
  | .error e => ([.getThumb slideId size], .error e)
  | .ok url =>
    let fetched := fetchRetry env url [0, 1, 2]
    (.getThumb slideId size :: fetched.1, fetched.2)

/-- The per-slide size loop: on success return the slide bytes; on any
exception re-raise when the size is SMALL, otherwise continue with the
next size.  A loop that runs out of sizes without success or exception
yields no bytes for the slide (unreachable with the real size list). -/
def sizesLoop (env : ThumbEnv) (slideId : String) :
    List String → List ThumbEv × Except String (Option (List Nat))
  | [] => ([], .ok none)
  | size :: rest =>
    let attempted := attemptSize env slideId size
    match attempted.2 with
    | .ok content => (attempted.1, .ok (some content))
    | .error e =>
      if size = "SMALL" then (attempted.1, .error e)
      else
        let next := sizesLoop env slideId rest
        (attempted.1 ++ next.1, next.2)

/-- Python format {:02d}: decimal, left-padded with zeros to width 2. -/
def pad2 (n : Nat) : String :=
  if n < 10 then "0" ++ toString n else toString n

/-- Name of the ZIP entry for the slide with 1-based index idx. -/
def zipName (idx : Nat) : String :=
  "slide_" ++ pad2 idx ++ ".png"

/-- The slide loop of the exporter, enumerating slides from index 1: a
failing slide aborts the whole export; a successful slide contributes one
ZIP entry. -/
def slidesLoop (env : ThumbEnv) : Nat → List String → List ThumbEv × Except String (List (String × List Nat))
  | _, [] => ([], .ok [])
  | idx, sid :: rest =>
    let tried := sizesLoop env sid ["LARGE", "MEDIUM", "SMALL"]
    match tried.2 with
    | .error e => (tried.1, .error e)
    | .ok none =>
      let next := slidesLoop env (idx + 1) rest
      (tried.1 ++ next.1, next.2)
    | .ok (some content) =>
      let next := slidesLoop env (idx + 1) rest
      (tried.1 ++ next.1,
        match next.2 with
        | .error e => .error e
        | .ok entries => .ok ((zipName idx, content) :: entries))

/-- Embedding of build_slide_images_zip: fetch the slide list, then run
the slide loop; the returned ZIP archive is modelled as its list of
entries. -/
def build_slide_images_zip (env : ThumbEnv) :
    List ThumbEv × Except String (List (String × List Nat)) :=
  match env.presMeta with
  | .error e => ([.getMeta], .error e)
  | .ok slideIds =>
    let looped := slidesLoop env 1 slideIds
    (.getMeta :: looped.1, looped.2)

/-! ## Auxiliary notions about the parse loop, used to state the claims -/

/-- The catalog key a line is recognised as, when its stripped form matches
the token regex and the normalised token is in the catalog. -/
def lineKeyOf (cat : List Line) (l : Line) : Option Line :=
  match matchToken (pyStrip l) with
  | none => none
  | some (rawKey, _) =>
    let key := normalizeKey rawKey
    if key ∈ cat then some key else none

/-- The stripped inline text of a line (empty when the line does not
match the token regex). -/
def lineInlineVal (l : Line) : Line :=
  match matchToken (pyStrip l) with
  | none => []
  | some (_, val) => pyStrip val

/-- The value the parse loop stores for a recognised line, given the lines
after it: the stripped inline text when non-empty, the next-line fallback
otherwise. -/
def assignedVal (l : Line) (rest : List Line) : Line :=
  if lineInlineVal l ≠ [] then lineInlineVal l else nextNonBlank rest

/-- The value assigned by the last line recognising key k, when any line
does. -/
def lastAssign (cat : List Line) (k : Line) : List Line → Option Line
  | [] => none
  | l :: rest =>
    match lastAssign cat k rest with
    | some v => some v
    | none => if lineKeyOf cat l = some k then some (assignedVal l rest) else none

/-- The last line of the list recognising key k, when any. -/
def lastRecLine (cat : List Line) (k : Line) : List Line → Option Line
  | [] => none
  | l :: rest =>
    match lastRecLine cat k rest with
    | some l' => some l'
    | none => if lineKeyOf cat l = some k then some l else none

/-! ## Concrete inputs used by the witnesses and the counterexample -/

/-- A one-key catalog used by concrete parsing scenarios. -/
def catTitle : List Line := [wrapBraces "Title".toList]

/-- A generation environment in which every remote call succeeds. -/
def genEnvOk : GenEnv where
  copyResult := .ok "deck1"
  moveResult := .ok ()
  replaceResult := .ok ()
  permResult := .ok ()
  linkResult := .ok "link1"

/-- A generation environment whose relocation call raises. -/
def genEnvMoveFails : GenEnv where
  copyResult := .ok "deck1"
  moveResult := .error "insufficient permissions"
  replaceResult := .ok ()
  permResult := .ok ()
  linkResult := .ok "link1"

/-- Exporter environment for the counterexample: a single slide whose
LARGE download answers with the client-side status 404 and whose MEDIUM
download succeeds. -/
def envC2 : ThumbEnv where
  presMeta := .ok ["s1"]
  getThumbnail := fun sid size =>
    if sid = "s1" && size = "LARGE" then .ok "uL"
    else if sid = "s1" && size = "MEDIUM" then .ok "uM"
    else .error "no descriptor"
  fetch := fun url _ =>
    if url = "uL" then .ok (404, [])
    else if url = "uM" then .ok (200, [7])
    else .error "no fetch"

/-- Exporter environment in which every descriptor call yields the URL u,
downloads from u answer 404, and downloads from u5 answer 503. -/
def envW2 : ThumbEnv where
  presMeta := .ok ["s1"]
  getThumbnail := fun _ _ => .ok "u"
  fetch := fun url _ =>
    if url = "u" then .ok (404, [])
    else if url = "u5" then .ok (503, [])
    else .error "no fetch"

/-- Exporter environment for the 503-503-success scenario at LARGE size. -/
def envC3 : ThumbEnv where
  presMeta := .ok ["s1"]
  getThumbnail := fun sid size =>
    if sid = "s1" && size = "LARGE" then .ok "uL" else .error "no descriptor"
  fetch := fun url a =>
    if url = "uL" then (if a < 2 then .ok (503, []) else .ok (200, [9]))
    else .error "no fetch"

/-- Exporter environment with two slides where every size of the second
slide fails at the descriptor call. -/
def envAllFail : ThumbEnv where
  presMeta := .ok ["s0", "s1"]
  getThumbnail := fun sid _ =>
    if sid = "s0" then .ok "u0" else .error "denied"
  fetch := fun url _ =>
    if url = "u0" then .ok (200, [1]) else .error "no fetch"

/-- Exporter environment whose metadata lists no slides. -/
def envNoSlides : ThumbEnv where
  presMeta := .ok []
  getThumbnail := fun _ _ => .error "unused"
  fetch := fun _ _ => .error "unused"

/-! ## Generic list lemmas -/

theorem takeWhile_append_all {α : Type} {p : α → Bool} {xs : List α} (ys : List α)
    (h : ∀ x ∈ xs, p x = true) :
    (xs ++ ys).takeWhile p = xs ++ ys.takeWhile p := by
  induction xs with
  | nil => simp
  | cons a t ih =>
    simp only [List.cons_append, List.takeWhile_cons, h a (by simp), if_pos]
    rw [ih (fun x hx => h x (by simp [hx]))]

theorem dropWhile_append_all {α : Type} {p : α → Bool} {xs : List α} (ys : List α)
    (h : ∀ x ∈ xs, p x = true) :
    (xs ++ ys).dropWhile p = ys.dropWhile p := by
  induction xs with
  | nil => simp
  | cons a t ih =>
    simp only [List.cons_append, List.dropWhile_cons, h a (by simp), if_pos]
    exact ih (fun x hx => h x (by simp [hx]))

theorem takeWhile_eq_nil_of_head {α : Type} {p : α → Bool} {l : List α} {c : α}
    (h : l.head? = some c) (hc : p c = false) : l.takeWhile p = [] := by
  cases l with
  | nil => simp at h
  | cons a t =>
    simp only [List.head?_cons, Option.some.injEq] at h
    subst h
    simp [List.takeWhile_cons, hc]

theorem dropWhile_eq_self_of_head {α : Type} {p : α → Bool} {l : List α} {c : α}
    (h : l.head? = some c) (hc : p c = false) : l.dropWhile p = l := by
  cases l with
  | nil => simp at h
  | cons a t =>
    simp only [List.head?_cons, Option.some.injEq] at h
    subst h
    simp [List.dropWhile_cons, hc]

theorem dropWhile_head_false {α : Type} {p : α → Bool} {l r : List α} {c : α}
    (h : l.dropWhile p = c :: r) : p c = false := by
  induction l with
  | nil => simp at h
  | cons a t ih =>
    rw [List.dropWhile_cons] at h
    by_cases hp : p a = true
    · exact ih (by simpa [hp] using h)
    · rw [if_neg hp] at h
      cases h
      simpa using hp

theorem dropWhile_prefix_decomp {α : Type} (p : α → Bool) (l : List α) :
    ∃ t, l = t ++ l.dropWhile p ∧ ∀ x ∈ t, p x = true := by
  induction l with
  | nil => exact ⟨[], rfl, by simp⟩
  | cons a t ih =>
    by_cases hp : p a = true
    · obtain ⟨u, hu, hall⟩ := ih
      refine ⟨a :: u, ?_, ?_⟩
      · simpa [List.dropWhile_cons, hp] using congrArg (a :: ·) hu
      · intro x hx
        rcases List.mem_cons.mp hx with hx | hx
        · simpa [hx] using hp
        · exact hall x hx
    · refine ⟨[], ?_, by simp⟩
      simp [List.dropWhile_cons, hp]

/-! ## Lemmas about pyStrip -/

theorem pyStrip_nil : pyStrip [] = [] := rfl

theorem pyStrip_eq_self_of_heads {l : Line} {c d : Char}
    (h1 : l.head? = some c) (hc : isPySpace c = false)
    (h2 : l.reverse.head? = some d) (hd : isPySpace d = false) :
    pyStrip l = l := by
  unfold pyStrip
  rw [dropWhile_eq_self_of_head h1 hc, dropWhile_eq_self_of_head h2 hd,
    List.reverse_reverse]

theorem pyStrip_head_not_space {l : Line} {c : Char} {cs : List Char}
    (h : pyStrip l = c :: cs) : isPySpace c = false := by
  obtain ⟨t, ht, htall⟩ := dropWhile_prefix_decomp isPySpace (l.dropWhile isPySpace).reverse
  have hA : l.dropWhile isPySpace = pyStrip l ++ t.reverse := by
    have := congrArg List.reverse ht
    simpa [List.reverse_append, pyStrip] using this
  rw [h] at hA
  exact dropWhile_head_false (by simpa using hA)

theorem pyStrip_last_not_space {l : Line} {d : Char}
    (h : (pyStrip l).reverse.head? = some d) : isPySpace d = false := by
  have hrw : (pyStrip l).reverse = (l.dropWhile isPySpace).reverse.dropWhile isPySpace := by
    simp [pyStrip]
  rw [hrw] at h
  cases hB : (l.dropWhile isPySpace).reverse.dropWhile isPySpace with
  | nil => rw [hB] at h; simp at h
  | cons b bs =>
    rw [hB, List.head?_cons] at h
    have hbd : b = d := Option.some.inj h
    subst hbd
    exact dropWhile_head_false hB

theorem pyStrip_idem (l : Line) : pyStrip (pyStrip l) = pyStrip l := by
  cases hP : pyStrip l with
  | nil => exact pyStrip_nil
  | cons c cs =>
    have h1 : isPySpace c = false := pyStrip_head_not_space hP
    cases hr : (c :: cs).reverse with
    | nil => exact absurd (congrArg List.length hr) (by simp)
    | cons d ds =>
      have h2 : isPySpace d = false := by
        apply pyStrip_last_not_space (l := l)
        rw [hP, hr]
        rfl
      exact pyStrip_eq_self_of_heads rfl h1 (by rw [hr]; rfl) h2

theorem nextNonBlank_strip (ls : List Line) : pyStrip (nextNonBlank ls) = nextNonBlank ls := by
  induction ls with
  | nil => rfl
  | cons l rest ih =>
    rw [nextNonBlank]
    by_cases h : pyStrip l ≠ []
    · rw [if_pos h, pyStrip_idem]
    · rw [if_neg h]
      exact ih

/-! ## Lemmas about the mapping operations -/

theorem lookupM_updateMap (m : List (Line × Line)) (k v k' : Line) :
    lookupM (updateMap m k v) k' = if k = k' then some v else lookupM m k' := by
  induction m with
  | nil => simp [updateMap, lookupM]
  | cons kv rest ih =>
    obtain ⟨a, b⟩ := kv
    by_cases hak : a = k
    · subst hak
      by_cases hk : a = k' <;> simp [updateMap, lookupM, hk]
    · by_cases hak' : a = k'
      · subst hak'
        have : ¬(k = a) := fun h => hak h.symm
        simp [updateMap, lookupM, hak, this]
      · simp [updateMap, lookupM, hak, hak', ih]

theorem mem_updateMap {m : List (Line × Line)} {k v : Line} {x : Line × Line}
    (h : x ∈ updateMap m k v) : x = (k, v) ∨ x ∈ m := by
  induction m with
  | nil => simpa [updateMap] using h
  | cons kv rest ih =>
    obtain ⟨a, b⟩ := kv
    by_cases hak : a = k
    · subst hak
      rw [updateMap, if_pos rfl] at h
      rcases List.mem_cons.mp h with h | h
      · exact Or.inl h
      · exact Or.inr (List.mem_cons.mpr (Or.inr h))
    · rw [updateMap, if_neg hak] at h
      rcases List.mem_cons.mp h with h | h
      · exact Or.inr (List.mem_cons.mpr (Or.inl h))
      · rcases ih h with h | h
        · exact Or.inl h
        · exact Or.inr (List.mem_cons.mpr (Or.inr h))

/-! ## The parse loop computes the last assignment -/

theorem parseLines_lookup (cat : List Line) (k : Line) :
    ∀ (ls : List Line) (m : List (Line × Line)),
      lookupM (parseLines cat ls m) k =
        match lastAssign cat k ls with
        | some v => some v
        | none => lookupM m k := by
  intro ls
  induction ls with
  | nil => intro m; simp [parseLines, lastAssign]
  | cons l rest ih =>
    intro m
    rw [parseLines, lastAssign]
    cases hm : matchToken (pyStrip l) with
    | none =>
      have hkey : lineKeyOf cat l = none := by rw [lineKeyOf, hm]
      rw [hkey]
      cases hla : lastAssign cat k rest with
      | none => simpa [hla] using ih m
      | some v => simpa [hla] using ih m
    | some rv =>
      obtain ⟨rawKey, val⟩ := rv
      by_cases hc : normalizeKey rawKey ∈ cat
      · have hkey : lineKeyOf cat l = some (normalizeKey rawKey) := by
          rw [lineKeyOf, hm]
          simp [hc]
        have hval : assignedVal l rest
            = if pyStrip val ≠ [] then pyStrip val else nextNonBlank rest := by
          rw [assignedVal, lineInlineVal, hm]
        rw [hkey]
        simp only [hc, if_pos]
        cases hla : lastAssign cat k rest with
        | some v => simpa [hla] using ih (updateMap m (normalizeKey rawKey)
            (if pyStrip val ≠ [] then pyStrip val else nextNonBlank rest))
        | none =>
          have := ih (updateMap m (normalizeKey rawKey)
            (if pyStrip val ≠ [] then pyStrip val else nextNonBlank rest))
          rw [hla] at this
          simp only [this, lookupM_updateMap]
          by_cases hk : normalizeKey rawKey = k
          · subst hk
            simp [hval]
          · have : ¬(some (normalizeKey rawKey) = some k) := by
              intro h
              exact hk (Option.some.inj h)
            simp [hk, this]
      · have hkey : lineKeyOf cat l = none := by
          rw [lineKeyOf, hm]
          simp [hc]
        rw [hkey]
        simp only [hc, if_neg, if_false]
        cases hla : lastAssign cat k rest with
        | none => simpa [hla] using ih m
        | some v => simpa [hla] using ih m

theorem parse_lookup (cat : List Line) (ls : List Line) (k : Line) :
    lookupM (parse_user_content_cat cat ls).1 k =
      match lastAssign cat k ls with
      | some v => some v
      | none => none := by
  have h := parseLines_lookup cat k ls []
  rw [parse_user_content_cat]
  cases hla : lastAssign cat k ls with
  | some v => rw [hla] at h; exact h
  | none => rw [hla] at h; exact h

theorem mem_missing_iff (cat : List Line) (ls : List Line) (k : Line) :
    k ∈ (parse_user_content_cat cat ls).2 ↔
      k ∈ cat ∧ lookupM (parse_user_content_cat cat ls).1 k = none := by
  rw [parse_user_content_cat]
  simp only [List.mem_filter, Bool.not_eq_true', containsKey]
  constructor
  · rintro ⟨h1, h2⟩
    exact ⟨h1, Option.not_isSome_iff_eq_none.mp (by simp [h2])⟩
  · rintro ⟨h1, h2⟩
    exact ⟨h1, by simp [h2]⟩

theorem lastAssign_append_some {cat : List Line} {k v : Line} {ys : List Line}
    (xs : List Line) (h : lastAssign cat k ys = some v) :
    lastAssign cat k (xs ++ ys) = some v := by
  induction xs with
  | nil => simpa using h
  | cons x t ih =>
    rw [List.cons_append, lastAssign, ih]

theorem lastAssign_none_of_no_key {cat : List Line} {k : Line} {ls : List Line}
    (h : ∀ l ∈ ls, lineKeyOf cat l ≠ some k) :
    lastAssign cat k ls = none := by
  induction ls with
  | nil => rfl
  | cons l rest ih =>
    rw [lastAssign, ih (fun x hx => h x (List.mem_cons.mpr (Or.inr hx)))]
    simp [h l (List.mem_cons.mpr (Or.inl rfl))]

theorem lastRecLine_key {cat : List Line} {k : Line} {ls : List Line} {l : Line}
    (h : lastRecLine cat k ls = some l) : lineKeyOf cat l = some k := by
  induction ls with
  | nil => simp [lastRecLine] at h
  | cons x rest ih =>
    rw [lastRecLine] at h
    cases hr : lastRecLine cat k rest with
    | some l' =>
      rw [hr] at h
      exact ih (by rw [hr, Option.some.inj h])
    | none =>
      rw [hr] at h
      by_cases hx : lineKeyOf cat x = some k
      · rw [if_pos hx] at h
        rw [← Option.some.inj h]
        exact hx
      · rw [if_neg hx] at h
        exact absurd h (by simp)

theorem mem_of_lineKeyOf {cat : List Line} {l k : Line}
    (h : lineKeyOf cat l = some k) : k ∈ cat := by
  rw [lineKeyOf] at h
  cases hm : matchToken (pyStrip l) with
  | none => rw [hm] at h; exact absurd h (by simp)
  | some rv =>
    obtain ⟨rawKey, val⟩ := rv
    rw [hm] at h
    simp only at h
    by_cases hc : normalizeKey rawKey ∈ cat
    · rw [if_pos hc] at h
      rw [← Option.some.inj h]
      exact hc
    · rw [if_neg hc] at h
      exact absurd h (by simp)

theorem lastAssign_none_of_lastRec_none {cat : List Line} {k : Line} {ls : List Line}
    (h : lastRecLine cat k ls = none) : lastAssign cat k ls = none := by
  induction ls with
  | nil => rfl
  | cons l rest ih =>
    rw [lastRecLine] at h
    cases hr : lastRecLine cat k rest with
    | some l' => rw [hr] at h; exact absurd h (by simp)
    | none =>
      rw [hr] at h
      by_cases hx : lineKeyOf cat l = some k
      · rw [if_pos hx] at h; exact absurd h (by simp)
      · rw [lastAssign, ih hr]
        simp [hx]

theorem lastAssign_of_lastRec {cat : List Line} {k : Line} {ls : List Line} {l : Line}
    (h : lastRecLine cat k ls = some l) (hv : lineInlineVal l ≠ []) :
    lastAssign cat k ls = some (lineInlineVal l) := by
  induction ls with
  | nil => simp [lastRecLine] at h
  | cons x rest ih =>
    rw [lastRecLine] at h
    rw [lastAssign]
    cases hr : lastRecLine cat k rest with
    | some l' =>
      rw [hr] at h
      rw [ih (by rw [hr, Option.some.inj h])]
    | none =>
      rw [hr] at h
      rw [lastAssign_none_of_lastRec_none hr]
      by_cases hx : lineKeyOf cat x = some k
      · rw [if_pos hx] at h
        have hxl : x = l := Option.some.inj h
        subst hxl
        rw [if_pos hx, assignedVal, if_pos hv]
      · rw [if_neg hx] at h
        exact absurd h (by simp)

/-! ## Values stored in the mapping are always stripped -/

theorem parseLines_values_stripped (cat : List Line) :
    ∀ (ls : List Line) (m : List (Line × Line)),
      (∀ kv ∈ m, pyStrip kv.2 = kv.2) →
      ∀ kv ∈ parseLines cat ls m, pyStrip kv.2 = kv.2 := by
  intro ls
  induction ls with
  | nil =>
    intro m hm kv hkv
    rw [parseLines] at hkv
    exact hm kv hkv
  | cons l rest ih =>
    intro m hm kv hkv
    rw [parseLines] at hkv
    cases hmt : matchToken (pyStrip l) with
    | none =>
      rw [hmt] at hkv
      exact ih m hm kv hkv
    | some rv =>
      obtain ⟨rawKey, val⟩ := rv
      rw [hmt] at hkv
      by_cases hc : normalizeKey rawKey ∈ cat
      · have hkv2 : kv ∈ parseLines cat rest (updateMap m (normalizeKey rawKey)
            (if pyStrip val ≠ [] then pyStrip val else nextNonBlank rest)) := by
          simpa [hc] using hkv
        refine ih _ ?_ kv hkv2
        intro kv' hkv'
        rcases mem_updateMap hkv' with h | h
        · subst h
          by_cases hval : pyStrip val ≠ []
          · simp only [if_pos hval]
            exact pyStrip_idem val
          · simp only [if_neg hval]
            exact nextNonBlank_strip rest
        · exact hm kv' h
      · have hkv2 : kv ∈ parseLines cat rest m := by
          simpa [hc] using hkv
        exact ih m hm kv hkv2

/-! ## Claim theorems -/

/-- C1: for every pasted text whose parse result has a non-empty missing
list, the Generate Slide Deck handler performs no remote operation at all
(in particular neither the batch replace of replace_placeholders nor the
publish calls of make_deck_public) and stops with the validation error
listing the missing keys. -/
theorem c1_substitution_gating (env : GenEnv) (text : List Line)
    (h : (parse_user_content text).2 ≠ []) :
    generate_slide_deck env text
      = ([], [], GenOutcome.validationError (parse_user_content text).2) := by
  rw [generate_slide_deck]
  simp [h]

theorem c1_substitution_gating_witness :
    generate_slide_deck genEnvOk []
      = ([], [], GenOutcome.validationError (parse_user_content []).2) :=
  c1_substitution_gating genEnvOk [] (by decide)

/-- C4: whenever, for every catalog key k, the last line recognising k has
non-empty stripped inline text, the parse returns an empty missing list
and maps every key k to exactly that stripped inline text. -/
theorem c4_round_trip_completeness (cat : List Line) (ls : List Line)
    (h : ∀ k ∈ cat, ∃ l, lastRecLine cat k ls = some l ∧ lineInlineVal l ≠ []) :
    (parse_user_content_cat cat ls).2 = [] ∧
    ∀ k l, lastRecLine cat k ls = some l → lineInlineVal l ≠ [] →
      lookupM (parse_user_content_cat cat ls).1 k = some (lineInlineVal l) := by
  constructor
  · show cat.filter (fun ph => !(containsKey (parseLines cat ls []) ph)) = []
    rw [List.filter_eq_nil_iff]
    intro ph hph
    obtain ⟨l, hl, hv⟩ := h ph hph
    have hla := lastAssign_of_lastRec hl hv
    have h2 := parseLines_lookup cat ph ls []
    rw [hla] at h2
    simp [containsKey, h2]
  · intro k l hl hv
    have hla := lastAssign_of_lastRec hl hv
    have h2 := parse_lookup cat ls k
    rw [hla] at h2
    exact h2

theorem c4_round_trip_completeness_witness :
    (parse_user_content_cat catTitle
      [wrapBraces "Title".toList ++ " A".toList,
       wrapBraces "Title".toList ++ " B".toList]).2 = [] ∧
    lookupM (parse_user_content_cat catTitle
      [wrapBraces "Title".toList ++ " A".toList,
       wrapBraces "Title".toList ++ " B".toList]).1 (wrapBraces "Title".toList)
      = some "B".toList := by
  have h := c4_round_trip_completeness catTitle
    [wrapBraces "Title".toList ++ " A".toList,
     wrapBraces "Title".toList ++ " B".toList]
    (by
      intro k hk
      have hk2 : k = wrapBraces "Title".toList := by
        simpa [catTitle] using hk
      subst hk2
      exact ⟨wrapBraces "Title".toList ++ " B".toList, by decide, by decide⟩)
  exact ⟨h.1, by
    have h2 := h.2 (wrapBraces "Title".toList)
      (wrapBraces "Title".toList ++ " B".toList) (by decide) (by decide)
    rw [h2]
    decide⟩

/-- C6: when the same catalog token occurs on two lines with different
(non-empty inline) values and no later line recognises the token again,
the mapping holds the value of the second, later occurrence. -/
theorem c6_last_write_wins (cat A B C : List Line) (l1 l2 k v1 v2 : Line)
    (h1 : lineKeyOf cat l1 = some k) (hv1 : lineInlineVal l1 = v1) (hne1 : v1 ≠ [])
    (h2 : lineKeyOf cat l2 = some k) (hv2 : lineInlineVal l2 = v2) (hne2 : v2 ≠ [])
    (hneq : v1 ≠ v2)
    (hC : ∀ l ∈ C, lineKeyOf cat l ≠ some k) :
    lookupM (parse_user_content_cat cat (A ++ l1 :: (B ++ l2 :: C))).1 k = some v2 := by
  have hl2 : lastAssign cat k (l2 :: C) = some v2 := by
    rw [lastAssign, lastAssign_none_of_no_key hC]
    have hav : assignedVal l2 C = v2 := by
      rw [assignedVal, hv2, if_pos hne2]
    simp [h2, hav]
  have hys : lastAssign cat k (B ++ l2 :: C) = some v2 :=
    lastAssign_append_some B hl2
  have hfull : lastAssign cat k (l1 :: (B ++ l2 :: C)) = some v2 := by
    rw [lastAssign, hys]
  have hall : lastAssign cat k (A ++ l1 :: (B ++ l2 :: C)) = some v2 :=
    lastAssign_append_some A hfull
  have h3 := parse_lookup cat (A ++ l1 :: (B ++ l2 :: C)) k
  rw [hall] at h3
  exact h3

theorem c6_last_write_wins_witness :
    lookupM (parse_user_content_cat catTitle
      [wrapBraces "Title".toList ++ " First".toList,
       wrapBraces "Title".toList ++ " Second".toList]).1 (wrapBraces "Title".toList)
      = some "Second".toList := by
  have h := c6_last_write_wins catTitle [] [] []
    (wrapBraces "Title".toList ++ " First".toList)
    (wrapBraces "Title".toList ++ " Second".toList)
    (wrapBraces "Title".toList) "First".toList "Second".toList
    (by decide) (by decide) (by decide) (by decide) (by decide) (by decide)
    (by decide) (by decide)
  exact h

/-- C7: a recognised token line with empty inline text receives as value
the stripped first non-blank line after it (the empty string when every
later line is blank), provided no later line recognises the same key; the
key is in the mapping either way, hence never reported missing. -/
theorem c7_next_line_fallback (cat A B : List Line) (l k : Line)
    (h : lineKeyOf cat l = some k) (hempty : lineInlineVal l = [])
    (hB : ∀ x ∈ B, lineKeyOf cat x ≠ some k) :
    lookupM (parse_user_content_cat cat (A ++ l :: B)).1 k = some (nextNonBlank B) ∧
    k ∉ (parse_user_content_cat cat (A ++ l :: B)).2 := by
  have hl : lastAssign cat k (l :: B) = some (nextNonBlank B) := by
    rw [lastAssign, lastAssign_none_of_no_key hB]
    have hav : assignedVal l B = nextNonBlank B := by
      rw [assignedVal, hempty]
      simp
    simp [h, hav]
  have hall : lastAssign cat k (A ++ l :: B) = some (nextNonBlank B) :=
    lastAssign_append_some A hl
  have h3 := parse_lookup cat (A ++ l :: B) k
  rw [hall] at h3
  refine ⟨h3, ?_⟩
  intro hmem
  rw [mem_missing_iff] at hmem
  rw [h3] at hmem
  exact absurd hmem.2 (by simp)

theorem c7_next_line_fallback_witness :
    lookupM (parse_user_content_cat catTitle
      [wrapBraces "Title".toList, [], "  World ".toList]).1 (wrapBraces "Title".toList)
      = some "World".toList ∧
    wrapBraces "Title".toList ∉ (parse_user_content_cat catTitle
      [wrapBraces "Title".toList, [], "  World ".toList]).2 := by
  have h := c7_next_line_fallback catTitle [] [[], "  World ".toList]
    (wrapBraces "Title".toList) (wrapBraces "Title".toList)
    (by decide) (by decide) (by decide)
  refine ⟨?_, h.2⟩
  have h1 := h.1
  simp only [List.nil_append] at h1
  rw [h1]
  decide

/-- C8: when the remote copy succeeds and the relocation call raises, the
provisioning step still returns the copied document ID without raising,
surfacing the relocation failure only as a warning. -/
theorem c8_nonfatal_relocation (env : GenEnv) (p fid e : String)
    (hc : env.copyResult = .ok fid) (hm : env.moveResult = .error e) :
    copy_template_presentation env (some p)
      = ([.copyFile, .moveFile], [moveWarning e], .ok fid) := by
  rw [copy_template_presentation, hc, hm]

theorem c8_nonfatal_relocation_witness :
    copy_template_presentation genEnvMoveFails (some DESTINATION_FOLDER_ID)
      = ([.copyFile, .moveFile], [moveWarning "insufficient permissions"], .ok "deck1") :=
  c8_nonfatal_relocation genEnvMoveFails DESTINATION_FOLDER_ID "deck1"
    "insufficient permissions" rfl rfl

/-- C9: every value in the mapping returned by parse_user_content is
stripped of leading and trailing whitespace, including values captured by
the next-line fallback. -/
theorem c9_values_trimmed (lines : List Line) (k v : Line)
    (h : (k, v) ∈ (parse_user_content lines).1) : pyStrip v = v :=
  parseLines_values_stripped TEMPLATE_PLACEHOLDERS lines [] (by simp) (k, v) h

theorem c9_values_trimmed_witness :
    (wrapBraces "Title".toList, "Hi".toList)
      ∈ (parse_user_content [wrapBraces "Title".toList ++ "  Hi  ".toList]).1 ∧
    pyStrip "Hi".toList = "Hi".toList :=
  ⟨by decide, c9_values_trimmed [wrapBraces "Title".toList ++ "  Hi  ".toList]
    (wrapBraces "Title".toList) "Hi".toList (by decide)⟩

/-- C10: for a presentation whose metadata lists zero slides, the exporter
does not raise and returns the empty archive. -/
theorem c10_empty_presentation (env : ThumbEnv) (h : env.presMeta = .ok []) :
    build_slide_images_zip env = ([.getMeta], .ok []) := by
  rw [build_slide_images_zip, h]
  rfl

theorem c10_empty_presentation_witness :
    build_slide_images_zip envNoSlides = ([.getMeta], .ok []) :=
  c10_empty_presentation envNoSlides rfl

/-- C2 counterexample: in envC2 the LARGE download of the only slide fails
with the client-side status 404 on its first attempt, yet the export does
not raise: it falls through to the MEDIUM size, downloads it, and returns
the archive, contradicting the claim that a client-side failure makes the
export raise immediately without attempting the next smaller size. -/
theorem c2_counterexample :
    envC2.fetch "uL" 0 = .ok (404, []) ∧
    build_slide_images_zip envC2
      = ([.getMeta, .getThumb "s1" "LARGE", .fetchEv "uL" 0,
          .getThumb "s1" "MEDIUM", .fetchEv "uM" 0],
         .ok [("slide_01.png", [7])]) :=
  ⟨rfl, rfl⟩

/-- C2 (amended): a client-side HTTP failure (status below 500) or
exhaustion of the three download attempts aborts the download-retry loop
for the current size immediately, with no further download attempt at that
size; the resulting error is caught by the per-size handler, which falls
through to the next smaller thumbnail size, and the export raises only
when the failure happens at the SMALL size. -/
theorem c2_client_error_fallback (env : ThumbEnv) (url sid : String)
    (a : Nat) (rest : List Nat) (s : Nat) (content : List Nat) :
    (env.fetch url a = .ok (s, content) → 400 ≤ s → s < 500 →
      fetchRetry env url (a :: rest)
        = ([.fetchEv url a], .error ("HTTPError " ++ toString s)))
    ∧
    (∀ s0 c0 s1 c1 s2 c2,
      env.fetch url 0 = .ok (s0, c0) → 500 ≤ s0 → s0 < 600 →
      env.fetch url 1 = .ok (s1, c1) → 500 ≤ s1 → s1 < 600 →
      env.fetch url 2 = .ok (s2, c2) → 500 ≤ s2 → s2 < 600 →
      fetchRetry env url [0, 1, 2]
        = ([.fetchEv url 0, .fetchEv url 1, .fetchEv url 2],
           .error ("HTTPError " ++ toString s2)))
    ∧
    (∀ (size : String) (sizes : List String) (tr : List ThumbEv) (e : String),
      size ≠ "SMALL" → attemptSize env sid size = (tr, .error e) →
      sizesLoop env sid (size :: sizes)
        = (tr ++ (sizesLoop env sid sizes).1, (sizesLoop env sid sizes).2))
    ∧
    (∀ (tr : List ThumbEv) (e : String),
      attemptSize env sid "SMALL" = (tr, .error e) →
      sizesLoop env sid ["SMALL"] = (tr, .error e)) := by
  refine ⟨?_, ?_, ?_, ?_⟩
  · intro hf h4 h5
    have hH : isHTTPErrorStatus s = true := by
      simp only [isHTTPErrorStatus, Bool.and_eq_true, decide_eq_true_eq]
      omega
    have hno : ¬(500 ≤ s ∧ rest ≠ []) := by
      rintro ⟨h500, -⟩
      omega
    rw [fetchRetry, hf]
    simp [hH, hno]
  · intro s0 c0 s1 c1 s2 c2 hf0 hlo0 hhi0 hf1 hlo1 hhi1 hf2 hlo2 hhi2
    have hH0 : isHTTPErrorStatus s0 = true := by
      simp only [isHTTPErrorStatus, Bool.and_eq_true, decide_eq_true_eq]
      omega
    have hH1 : isHTTPErrorStatus s1 = true := by
      simp only [isHTTPErrorStatus, Bool.and_eq_true, decide_eq_true_eq]
      omega
    have hH2 : isHTTPErrorStatus s2 = true := by
      simp only [isHTTPErrorStatus, Bool.and_eq_true, decide_eq_true_eq]
      omega
    have e2 : fetchRetry env url [2] = ([.fetchEv url 2], .error ("HTTPError " ++ toString s2)) := by
      rw [fetchRetry, hf2]
      have hno : ¬(500 ≤ s2 ∧ ([] : List Nat) ≠ []) := by simp
      simp [hH2, hno]
    have e1 : fetchRetry env url [1, 2]
        = ([.fetchEv url 1, .fetchEv url 2], .error ("HTTPError " ++ toString s2)) := by
      rw [fetchRetry, hf1]
      have hyes : 500 ≤ s1 ∧ ([2] : List Nat) ≠ [] := ⟨hlo1, by simp⟩
      simp [hH1, hyes, e2]
    rw [fetchRetry, hf0]
    have hyes : 500 ≤ s0 ∧ ([1, 2] : List Nat) ≠ [] := ⟨hlo0, by simp⟩
    simp [hH0, hyes, e1]
  · intro size sizes tr e hs hat
    rw [sizesLoop]
    simp [hat, hs]
  · intro tr e hat
    rw [sizesLoop]
    simp [hat]

theorem c2_client_error_fallback_witness :
    fetchRetry envW2 "u" [0, 1, 2] = ([.fetchEv "u" 0], .error "HTTPError 404") ∧
    fetchRetry envW2 "u5" [0, 1, 2]
      = ([.fetchEv "u5" 0, .fetchEv "u5" 1, .fetchEv "u5" 2], .error "HTTPError 503") ∧
    sizesLoop envW2 "s1" ["LARGE", "MEDIUM", "SMALL"]
      = ([.getThumb "s1" "LARGE", .fetchEv "u" 0]
          ++ (sizesLoop envW2 "s1" ["MEDIUM", "SMALL"]).1,
         (sizesLoop envW2 "s1" ["MEDIUM", "SMALL"]).2) ∧
    sizesLoop envW2 "s1" ["SMALL"]
      = ([.getThumb "s1" "SMALL", .fetchEv "u" 0], .error "HTTPError 404") := by
  have h := c2_client_error_fallback envW2 "u" "s1" 0 [1, 2] 404 []
  have h5 := c2_client_error_fallback envW2 "u5" "s1" 0 [1, 2] 404 []
  refine ⟨h.1 rfl (by decide) (by decide), ?_, ?_, ?_⟩
  · exact h5.2.1 503 [] 503 [] 503 [] rfl (by decide) (by decide) rfl (by decide)
      (by decide) rfl (by decide) (by decide)
  · exact h.2.2.1 "LARGE" ["MEDIUM", "SMALL"]
      [.getThumb "s1" "LARGE", .fetchEv "u" 0] "HTTPError 404" (by decide) rfl
  · exact h.2.2.2 [.getThumb "s1" "SMALL", .fetchEv "u" 0] "HTTPError 404" rfl

theorem sizesLoop_error_of_attempts (env : ThumbEnv) (sid : String)
    (h : ∀ size ∈ (["LARGE", "MEDIUM", "SMALL"] : List String),
      ∃ e, (attemptSize env sid size).2 = Except.error e) :
    ∃ e, (sizesLoop env sid ["LARGE", "MEDIUM", "SMALL"]).2 = Except.error e := by
  obtain ⟨eL, hL⟩ := h "LARGE" (by simp)
  obtain ⟨eM, hM⟩ := h "MEDIUM" (by simp)
  obtain ⟨eS, hS⟩ := h "SMALL" (by simp)
  refine ⟨eS, ?_⟩
  simp [sizesLoop, hL, hM, hS]

theorem slidesLoop_error_of_mem (env : ThumbEnv) (sid : String)
    (h : ∃ e, (sizesLoop env sid ["LARGE", "MEDIUM", "SMALL"]).2 = Except.error e) :
    ∀ (sids : List String) (idx : Nat), sid ∈ sids →
      ∃ e, (slidesLoop env idx sids).2 = Except.error e := by
  intro sids
  induction sids with
  | nil => intro idx h2; simp at h2
  | cons s rest ih =>
    intro idx hmem
    cases hsz : (sizesLoop env s ["LARGE", "MEDIUM", "SMALL"]).2 with
    | error e => exact ⟨e, by simp [slidesLoop, hsz]⟩
    | ok oc =>
      have hs : sid ≠ s := by
        rintro rfl
        obtain ⟨e, he⟩ := h
        rw [he] at hsz
        cases hsz
      have hmem2 : sid ∈ rest := by
        rcases List.mem_cons.mp hmem with h2 | h2
        · exact absurd h2 hs
        · exact h2
      obtain ⟨e, he⟩ := ih (idx + 1) hmem2
      cases oc with
      | none => exact ⟨e, by simp [slidesLoop, hsz, he]⟩
      | some c => exact ⟨e, by simp [slidesLoop, hsz, he]⟩

/-- C3: a slide whose LARGE download answers 503 twice and then succeeds
keeps the bytes of the successful third attempt, with no fallback to
MEDIUM (no MEDIUM descriptor call appears in the trace); and when every
size of some slide fails, the whole export raises, returning no archive. -/
theorem c3_retry_fallback (env : ThumbEnv) (sid url : String)
    (c0 c1 content : List Nat) (sLast : Nat) (sids : List String) :
    (env.getThumbnail sid "LARGE" = .ok url →
     env.fetch url 0 = .ok (503, c0) →
     env.fetch url 1 = .ok (503, c1) →
     env.fetch url 2 = .ok (sLast, content) → sLast < 400 →
     sizesLoop env sid ["LARGE", "MEDIUM", "SMALL"]
       = ([.getThumb sid "LARGE", .fetchEv url 0, .fetchEv url 1, .fetchEv url 2],
          .ok (some content)))
    ∧
    (env.presMeta = .ok sids → sid ∈ sids →
     (∀ size ∈ (["LARGE", "MEDIUM", "SMALL"] : List String),
        ∃ e, (attemptSize env sid size).2 = Except.error e) →
     ∃ e, (build_slide_images_zip env).2 = Except.error e) := by
  constructor
  · intro hthumb hf0 hf1 hf2 hlt
    have hH : isHTTPErrorStatus 503 = true := by decide
    have hnotH : isHTTPErrorStatus sLast = false := by
      simp only [isHTTPErrorStatus, Bool.and_eq_false_iff, decide_eq_false_iff_not]
      left
      omega
    have e2 : fetchRetry env url [2] = ([.fetchEv url 2], .ok content) := by
      rw [fetchRetry, hf2]
      simp [hnotH]
    have e1 : fetchRetry env url [1, 2]
        = ([.fetchEv url 1, .fetchEv url 2], .ok content) := by
      rw [fetchRetry, hf1]
      have hyes : 500 ≤ 503 ∧ ([2] : List Nat) ≠ [] := by simp
      simp [hH, hyes, e2]
    have e0 : fetchRetry env url [0, 1, 2]
        = ([.fetchEv url 0, .fetchEv url 1, .fetchEv url 2], .ok content) := by
      rw [fetchRetry, hf0]
      have hyes : 500 ≤ 503 ∧ ([1, 2] : List Nat) ≠ [] := by simp
      simp [hH, hyes, e1]
    have hat : attemptSize env sid "LARGE"
        = ([.getThumb sid "LARGE", .fetchEv url 0, .fetchEv url 1, .fetchEv url 2],
           .ok content) := by
      rw [attemptSize, hthumb]
      simp [e0]
    rw [sizesLoop]
    simp [hat]
  · intro hmeta hmem hall
    obtain ⟨e, he⟩ := slidesLoop_error_of_mem env sid
      (sizesLoop_error_of_attempts env sid hall) sids 1 hmem
    refine ⟨e, ?_⟩
    rw [build_slide_images_zip, hmeta]
    simpa using he

theorem c3_retry_fallback_witness :
    sizesLoop envC3 "s1" ["LARGE", "MEDIUM", "SMALL"]
      = ([.getThumb "s1" "LARGE", .fetchEv "uL" 0, .fetchEv "uL" 1, .fetchEv "uL" 2],
         .ok (some [9])) ∧
    ∃ e, (build_slide_images_zip envAllFail).2 = Except.error e := by
  constructor
  · exact (c3_retry_fallback envC3 "s1" "uL" [] [] [9] 200 []).1
      rfl rfl rfl rfl (by decide)
  · refine (c3_retry_fallback envAllFail "s1" "u" [] [] [] 0 ["s0", "s1"]).2
      rfl (by decide) ?_
    intro size hs
    refine ⟨"denied", ?_⟩
    fin_cases hs <;> rfl

/-! ## Character facts used by the brace-normalisation claim -/

theorem isPySpace_spec {c : Char} (h : isPySpace c = true) :
    notRBrace c = true ∧ isRBrace c = false ∧ isLBrace c = false := by
  have h2 : c = ' ' ∨ c = '\t' ∨ c = '\n' ∨ c = '\r'
      ∨ c = Char.ofNat 11 ∨ c = Char.ofNat 12 := by
    have h3 := h
    simp only [isPySpace, Bool.or_eq_true, decide_eq_true_eq] at h3
    tauto
  rcases h2 with rfl | rfl | rfl | rfl | rfl | rfl <;> exact ⟨rfl, rfl, rfl⟩

theorem notRBrace_of_ne {c : Char} (h : c ≠ '}') : notRBrace c = true := by
  simp [notRBrace, h]

theorem isRBrace_false_of_ne {c : Char} (h : c ≠ '}') : isRBrace c = false := by
  simp [isRBrace, h]

theorem isLBrace_false_of_ne {c : Char} (h : c ≠ '{') : isLBrace c = false := by
  simp [isLBrace, h]

theorem matchToken_eq_some {s : Line}
    (hhead : s.head? = some '{')
    (hlen : 2 ≤ (s.takeWhile notRBrace).length)
    (hpost : s.dropWhile notRBrace ≠ []) :
    matchToken s
      = some (s.takeWhile notRBrace ++ (s.dropWhile notRBrace).takeWhile isRBrace,
          ((s.dropWhile notRBrace).dropWhile isRBrace).dropWhile isPySpace) := by
  cases s with
  | nil => simp at hhead
  | cons c t =>
    have hc : c = '{' := by simpa using hhead
    subst hc
    rw [matchToken]
    rw [if_pos rfl, if_pos ⟨hlen, hpost⟩]

/-- C5: for all brace counts a, b with at least one brace on each side and
any whitespace padding between the braces and the inner text X, a token
line written with a opening braces, X, b closing braces and then the value
text v is normalised to the catalog key with exactly two braces on each
side of X, and parsing the line yields the mapping entry (that key, v) —
the same key and the same entry for every a, b and padding. -/
theorem c5_brace_normalization (cat : List Line) (a b : Nat) (w1 w2 X v : Line)
    (ha : 1 ≤ a) (hb : 1 ≤ b)
    (hw1 : ∀ c ∈ w1, isPySpace c = true) (hw2 : ∀ c ∈ w2, isPySpace c = true)
    (hXne : X ≠ []) (hXbr : ∀ c ∈ X, c ≠ '}')
    (hXhead : ∀ c, X.head? = some c → (isPySpace c = false ∧ c ≠ '{'))
    (hXlast : ∀ c, X.reverse.head? = some c → isPySpace c = false)
    (hvne : v ≠ [])
    (hvhead : ∀ c, v.head? = some c → (isPySpace c = false ∧ c ≠ '}'))
    (hvlast : ∀ c, v.reverse.head? = some c → isPySpace c = false)
    (hcat : wrapBraces X ∈ cat) :
    (parse_user_content_cat cat
        [List.replicate a '{' ++ (w1 ++ (X ++ (w2 ++ (List.replicate b '}' ++ v))))]).1
      = [(wrapBraces X, v)] := by
  obtain ⟨a', rfl⟩ : ∃ a', a = a' + 1 := ⟨a - 1, by omega⟩
  obtain ⟨b', rfl⟩ : ∃ b', b = b' + 1 := ⟨b - 1, by omega⟩
  cases X with
  | nil => exact absurd rfl hXne
  | cons x Xt =>
  cases v with
  | nil => exact absurd rfl hvne
  | cons v0 vt =>
  obtain ⟨hxws, hxlb⟩ := hXhead x rfl
  obtain ⟨hv0ws, hv0rb⟩ := hvhead v0 rfl
  obtain ⟨d, ds, hvr⟩ : ∃ d ds, (v0 :: vt).reverse = d :: ds := by
    cases hvr : (v0 :: vt).reverse with
    | nil => exact absurd (congrArg List.length hvr) (by simp)
    | cons d ds => exact ⟨d, ds, rfl⟩
  have hdws : isPySpace d = false := hvlast d (by rw [hvr]; rfl)
  obtain ⟨xr, xrs, hXr⟩ : ∃ xr xrs, (x :: Xt).reverse = xr :: xrs := by
    cases hXr : (x :: Xt).reverse with
    | nil => exact absurd (congrArg List.length hXr) (by simp)
    | cons xr xrs => exact ⟨xr, xrs, rfl⟩
  have hxrws : isPySpace xr = false := hXlast xr (by rw [hXr]; rfl)
  have hxrmem : xr ∈ (x :: Xt) := by
    have h1 : xr ∈ (x :: Xt).reverse := by
      rw [hXr]
      exact List.mem_cons_self _ _
    exact List.mem_reverse.mp h1
  have hxrrb : xr ≠ '}' := hXbr xr hxrmem
  -- all-element facts for the takeWhile and dropWhile computations
  have hrepL : ∀ c ∈ List.replicate (a' + 1) '{', notRBrace c = true := by
    intro c hc
    rw [List.eq_of_mem_replicate hc]
    rfl
  have hrepLb : ∀ c ∈ List.replicate (a' + 1) '{', isLBrace c = true := by
    intro c hc
    rw [List.eq_of_mem_replicate hc]
    rfl
  have hrepR : ∀ c ∈ List.replicate (b' + 1) '}', isRBrace c = true := by
    intro c hc
    rw [List.eq_of_mem_replicate hc]
    rfl
  have hw1n : ∀ c ∈ w1, notRBrace c = true := fun c hc => (isPySpace_spec (hw1 c hc)).1
  have hw2n : ∀ c ∈ w2, notRBrace c = true := fun c hc => (isPySpace_spec (hw2 c hc)).1
  have hXn : ∀ c ∈ (x :: Xt), notRBrace c = true := fun c hc => notRBrace_of_ne (hXbr c hc)
  have hRBhead : (List.replicate (b' + 1) '}' ++ (v0 :: vt)).head? = some '}' := by
    rw [List.replicate_succ]
    rfl
  -- the four regex components on the whole line
  have hpre : (List.replicate (a' + 1) '{'
      ++ (w1 ++ ((x :: Xt) ++ (w2 ++ (List.replicate (b' + 1) '}' ++ (v0 :: vt)))))).takeWhile notRBrace
      = List.replicate (a' + 1) '{' ++ (w1 ++ ((x :: Xt) ++ w2)) := by
    rw [takeWhile_append_all _ hrepL, takeWhile_append_all _ hw1n,
      takeWhile_append_all _ hXn, takeWhile_append_all _ hw2n,
      takeWhile_eq_nil_of_head hRBhead rfl]
    simp
  have hpost : (List.replicate (a' + 1) '{'
      ++ (w1 ++ ((x :: Xt) ++ (w2 ++ (List.replicate (b' + 1) '}' ++ (v0 :: vt)))))).dropWhile notRBrace
      = List.replicate (b' + 1) '}' ++ (v0 :: vt) := by
    rw [dropWhile_append_all _ hrepL, dropWhile_append_all _ hw1n,
      dropWhile_append_all _ hXn, dropWhile_append_all _ hw2n,
      dropWhile_eq_self_of_head hRBhead rfl]
  have hclose : (List.replicate (b' + 1) '}' ++ (v0 :: vt)).takeWhile isRBrace
      = List.replicate (b' + 1) '}' := by
    rw [takeWhile_append_all _ hrepR,
      takeWhile_eq_nil_of_head (l := v0 :: vt) rfl (isRBrace_false_of_ne hv0rb)]
    simp
  have hrest : (List.replicate (b' + 1) '}' ++ (v0 :: vt)).dropWhile isRBrace = v0 :: vt := by
    rw [dropWhile_append_all _ hrepR,
      dropWhile_eq_self_of_head (l := v0 :: vt) rfl (isRBrace_false_of_ne hv0rb)]
  have hval : (v0 :: vt).dropWhile isPySpace = v0 :: vt :=
    dropWhile_eq_self_of_head rfl hv0ws
  -- the stripped line is the line itself
  have hlhead : (List.replicate (a' + 1) '{'
      ++ (w1 ++ ((x :: Xt) ++ (w2 ++ (List.replicate (b' + 1) '}' ++ (v0 :: vt)))))).head?
      = some '{' := by
    rw [List.replicate_succ]
    rfl
  have hlrev : (List.replicate (a' + 1) '{'
      ++ (w1 ++ ((x :: Xt) ++ (w2 ++ (List.replicate (b' + 1) '}' ++ (v0 :: vt)))))).reverse.head?
      = some d := by
    have hassoc : List.replicate (a' + 1) '{'
        ++ (w1 ++ ((x :: Xt) ++ (w2 ++ (List.replicate (b' + 1) '}' ++ (v0 :: vt)))))
        = (List.replicate (a' + 1) '{'
            ++ (w1 ++ ((x :: Xt) ++ (w2 ++ List.replicate (b' + 1) '}')))) ++ (v0 :: vt) := by
      simp [List.append_assoc]
    rw [hassoc, List.reverse_append,
      List.head?_append_of_ne_nil _ (by rw [hvr]; simp), hvr]
    rfl
  have hstrip : pyStrip (List.replicate (a' + 1) '{'
      ++ (w1 ++ ((x :: Xt) ++ (w2 ++ (List.replicate (b' + 1) '}' ++ (v0 :: vt))))))
      = List.replicate (a' + 1) '{'
        ++ (w1 ++ ((x :: Xt) ++ (w2 ++ (List.replicate (b' + 1) '}' ++ (v0 :: vt))))) :=
    pyStrip_eq_self_of_heads hlhead rfl hlrev hdws
  -- the regex match on the line
  have hmt : matchToken (List.replicate (a' + 1) '{'
      ++ (w1 ++ ((x :: Xt) ++ (w2 ++ (List.replicate (b' + 1) '}' ++ (v0 :: vt))))))
      = some ((List.replicate (a' + 1) '{' ++ (w1 ++ ((x :: Xt) ++ w2)))
          ++ List.replicate (b' + 1) '}', v0 :: vt) := by
    rw [matchToken_eq_some hlhead
      (by rw [hpre]; simp [List.length_append]; omega)
      (by rw [hpost, List.replicate_succ]; simp)]
    rw [hpre, hpost, hclose, hrest, hval]
  -- normalisation of the matched raw token
  have hkey : normalizeKey ((List.replicate (a' + 1) '{' ++ (w1 ++ ((x :: Xt) ++ w2)))
      ++ List.replicate (b' + 1) '}') = wrapBraces (x :: Xt) := by
    show wrapBraces (pyStrip ((((List.replicate (a' + 1) '{' ++ (w1 ++ ((x :: Xt) ++ w2)))
      ++ List.replicate (b' + 1) '}').dropWhile isLBrace).reverse.dropWhile isRBrace).reverse)
      = wrapBraces (x :: Xt)
    have e1 : ((List.replicate (a' + 1) '{' ++ (w1 ++ ((x :: Xt) ++ w2)))
        ++ List.replicate (b' + 1) '}').dropWhile isLBrace
        = (w1 ++ ((x :: Xt) ++ w2)) ++ List.replicate (b' + 1) '}' := by
      rw [List.append_assoc, dropWhile_append_all _ hrepLb]
      rcases hw1c : w1 with _ | ⟨c0, w1t⟩
      · exact dropWhile_eq_self_of_head (c := x) (by simp) (isLBrace_false_of_ne hxlb)
      · exact dropWhile_eq_self_of_head (c := c0) (by simp)
          ((isPySpace_spec (hw1 c0 (by rw [hw1c]; simp))).2.2)
    have e2 : ((w1 ++ ((x :: Xt) ++ w2)) ++ List.replicate (b' + 1) '}').reverse
        = List.replicate (b' + 1) '}' ++ (w2.reverse ++ ((x :: Xt).reverse ++ w1.reverse)) := by
      simp [List.reverse_append, List.reverse_replicate, List.append_assoc]
    have e3 : (List.replicate (b' + 1) '}'
        ++ (w2.reverse ++ ((x :: Xt).reverse ++ w1.reverse))).dropWhile isRBrace
        = w2.reverse ++ ((x :: Xt).reverse ++ w1.reverse) := by
      rw [dropWhile_append_all _ hrepR]
      rcases hw2c : w2.reverse with _ | ⟨c1, t1⟩
      · refine dropWhile_eq_self_of_head (c := xr) ?_ (isRBrace_false_of_ne hxrrb)
        rw [List.nil_append,
          List.head?_append_of_ne_nil _ (by rw [hXr]; simp), hXr]
        rfl
      · refine dropWhile_eq_self_of_head (c := c1) rfl ?_
        have hc1m : c1 ∈ w2 := by
          have h1 : c1 ∈ w2.reverse := by
            rw [hw2c]
            exact List.mem_cons_self _ _
          exact List.mem_reverse.mp h1
        exact (isPySpace_spec (hw2 c1 hc1m)).2.1
    have e4 : (w2.reverse ++ ((x :: Xt).reverse ++ w1.reverse)).reverse
        = w1 ++ ((x :: Xt) ++ w2) := by
      simp [List.reverse_append, List.append_assoc]
    have e5 : pyStrip (w1 ++ ((x :: Xt) ++ w2)) = x :: Xt := by
      unfold pyStrip
      have f1 : (w1 ++ ((x :: Xt) ++ w2)).dropWhile isPySpace = (x :: Xt) ++ w2 := by
        rw [dropWhile_append_all _ hw1]
        exact dropWhile_eq_self_of_head (c := x) rfl hxws
      rw [f1, List.reverse_append,
        dropWhile_append_all _ (fun c hc => hw2 c (by simpa using hc)),
        dropWhile_eq_self_of_head (c := xr) (by rw [hXr]; rfl) hxrws,
        List.reverse_reverse]
    rw [e1, e2, e3, e4, e5]
  -- run the parse loop on the single line
  have hpv : pyStrip (v0 :: vt) = v0 :: vt :=
    pyStrip_eq_self_of_heads rfl hv0ws (by rw [hvr]; rfl) hdws
  show parseLines cat [List.replicate (a' + 1) '{'
      ++ (w1 ++ ((x :: Xt) ++ (w2 ++ (List.replicate (b' + 1) '}' ++ (v0 :: vt)))))] []
      = [(wrapBraces (x :: Xt), v0 :: vt)]
  rw [parseLines, hstrip, hmt]
  simp only [hkey, hpv]
  rw [if_pos hcat]
  simp [parseLines, updateMap]

theorem c5_brace_normalization_witness :
    (parse_user_content_cat catTitle
        [List.replicate 3 '{' ++ (" ".toList ++ ("Title".toList
          ++ ([] ++ (List.replicate 1 '}' ++ "Knowing".toList))))]).1
      = [(wrapBraces "Title".toList, "Knowing".toList)] := by
  refine c5_brace_normalization catTitle 3 1 " ".toList [] "Title".toList "Knowing".toList
    (by decide) (by decide) (by decide) (by decide) (by decide) (by decide)
    ?_ ?_ (by decide) ?_ ?_ (by decide)
  · intro c hc
    have h3 : some 'T' = some c := hc
    cases Option.some.inj h3
    decide
  · intro c hc
    have h3 : some 'e' = some c := hc
    cases Option.some.inj h3
    decide
  · intro c hc
    have h3 : some 'K' = some c := hc
    cases Option.some.inj h3
    decide
  · intro c hc
    have h3 : some 'g' = some c := hc
    cases Option.some.inj h3
    decide
